import Mathlib

/-!
Shallow embedding of `app.py`: a chart-assignment tool that scores documents
by an embedded page count (`get_page_count`), splits them across team members
with a greedy load-balancing pass (`split_charts_optimally`), and renders the
resulting assignment as a textual report (`write_assignment_report`).

Modelling choices:
* A compiled regular expression is abstracted by its `findall` behaviour
  (the `re` module is an external collaborator; only the list of
  non-overlapping matches matters to this program).
* Python's insertion-ordered `dict` is modelled as an association list with
  first-occurrence key deduplication (`pyDictKeys`), exactly the semantics of
  a dict comprehension followed by key iteration in CPython 3.7+.
* Python's stable `sorted(..., reverse=True)` is modelled by a stable
  insertion sort (`pySortDescBy`): descending by key, equal keys keep their
  relative input order.
* `min(keys, key=...)` is modelled by `pyMinBy`, which returns the first
  element attaining the minimal key, like CPython's `min`.
* The report writer's `try/except` is modelled by `Except String`: the
  `.error` result is the path where an exception is raised inside the body
  and swallowed by the blanket handler (nothing is written in that case).
-/

/-- A compiled regular expression, abstracted by its `findall` behaviour on a
string: `findall s` is the list of non-overlapping matches of the pattern in
`s`. -/
structure Pattern where
  findall : String → List String

/-- A candidate document ("chart"): the `str` rendering of its `_id` field
(`none` models an absent `_id`), its optional `filename` field, and the
optional `ocr.markdown` text blob. -/
structure Chart where
  oid : Option String
  filename : Option String
  markdown : Option String
deriving DecidableEq

/-- Python `str` applied to `chart.get('_id')`: `str(None)` renders as
`"None"`, any present id renders as itself. -/
def pyStr : Option String → String
  | none => "None"
  | some s => s

/-- Embeds `get_page_count(doc, pattern)` (`app.py` lines 5-8):
`markdown = doc.get('ocr', {}).get('markdown')` followed by
`len(pattern.findall(markdown)) if markdown else 0`.  Python truthiness makes
both an absent blob (`None`) and an empty blob (`""`) take the `else 0`
branch. -/
def get_page_count (doc : Chart) (pattern : Pattern) : Nat :=
  match doc.markdown with
  | none => 0
  | some markdown => if markdown = "" then 0 else (pattern.findall markdown).length

/-- A roster entry as it arrives from the teams collection: either not a
dict at all, or a dict whose `name` field is absent (`none`) or holds a
string. -/
inductive TeamMember where
  | nonDict : TeamMember
  | dict : Option String → TeamMember
deriving DecidableEq

/-- The filter of the list comprehension on `app.py` line 23:
`isinstance(m, dict) and m.get('name')`; a missing name or the empty string
is falsy. -/
def isValidMember : TeamMember → Bool
  | .dict (some n) => !(n == "")
  | _ => false

/-- The projection `m['name']` of the comprehension on `app.py` line 23 (the
default value is never used on entries that pass `isValidMember`). -/
def memberName : TeamMember → String
  | .dict (some n) => n
  | _ => ""

/-- Embeds `[m['name'] for m in team_members if isinstance(m, dict) and m.get('name')]`
(`app.py` line 23). -/
def validNames (team_members : List TeamMember) : List String :=
  (team_members.filter isValidMember).map memberName

/-- One record of `workloads[member]['charts']` (`app.py` lines 35-37):
`str(chart.get('_id'))`, `chart.get('filename', 'N/A')` and the page count. -/
structure AssignedChart where
  id : String
  filename : String
  pages : Nat
deriving DecidableEq

/-- One value of the `workloads` dict: the ordered list of assigned chart
records and the running `total_pages`. -/
structure Bucket where
  charts : List AssignedChart
  total_pages : Nat
deriving DecidableEq

/-- The `workloads` dict, as an insertion-ordered association list (CPython
dicts preserve insertion order). -/
abbrev Workloads := List (String × Bucket)

/-- The record appended on `app.py` lines 35-37 for one chart. -/
def assignedOf (chart : Chart) (pattern : Pattern) : AssignedChart :=
  ⟨pyStr chart.oid, chart.filename.getD "N/A", get_page_count chart pattern⟩

/-- Key order of a Python dict comprehension over a possibly-repeating key
list: first occurrence of each key, in input order. -/
def pyDictKeys : List String → List String
  | [] => []
  | n :: ns => n :: (pyDictKeys ns).filter (fun m => m != n)

/-- Embeds `{name: {'charts': [], 'total_pages': 0} for name in member_names}`
(`app.py` line 29). -/
def initWorkloads (member_names : List String) : Workloads :=
  (pyDictKeys member_names).map (fun name => (name, ⟨[], 0⟩))

/-- Stable descending insertion: `a` is placed before the first element whose
key is less than or equal to `key a`, so earlier input elements precede
later equal-key ones. -/
def insertByDesc (key : α → Nat) (a : α) : List α → List α
  | [] => [a]
  | b :: bs => if key b ≤ key a then a :: b :: bs else b :: insertByDesc key a bs

/-- Embeds Python's stable `sorted(l, key=key, reverse=True)` (`app.py`
line 28): sorted by key descending, equal keys in input order. -/
def pySortDescBy (key : α → Nat) (l : List α) : List α :=
  l.foldr (insertByDesc key) []

/-- The fold step of CPython's `min(..., key=f)`: the running best is
replaced only on a strictly smaller key, so the first minimal element wins. -/
def pyMinAux (f : α → Nat) (best : α) (l : List α) : α :=
  l.foldl (fun best x => if f x < f best then x else best) best

/-- Embeds `min(iterable, key=f)`: `none` models the `ValueError` on an empty
iterable, otherwise the first element attaining the minimal key. -/
def pyMinBy (f : α → Nat) : List α → Option α
  | [] => none
  | a :: as => some (pyMinAux f a as)

/-- Embeds the dict update `workloads[min_member]` (`app.py` lines 35-38):
the (unique) entry with the given key is replaced; entries keep their
positions. -/
def updateBucket (name : String) (f : Bucket → Bucket) : Workloads → Workloads
  | [] => []
  | (n, b) :: rest =>
    if n = name then (n, f b) :: rest else (n, b) :: updateBucket name f rest

/-- The mutation on `app.py` lines 35-38: append the chart record and add its
pages to the running total. -/
def addChart (c : AssignedChart) (b : Bucket) : Bucket :=
  ⟨b.charts ++ [c], b.total_pages + c.pages⟩

/-- One iteration of the assignment loop (`app.py` lines 32-38): pick the
member with minimum `total_pages` (first such member in dict order on a tie)
and give it the chart.  The `none` branch of `pyMinBy` is unreachable in the
program because the loop only runs with a non-empty `workloads` dict. -/
def assignChart (pattern : Pattern) (workloads : Workloads) (chart : Chart) : Workloads :=
  match pyMinBy (fun e => e.2.total_pages) workloads with
  | none => workloads
  | some e => updateBucket e.1 (addChart (assignedOf chart pattern)) workloads

/-- Embeds `split_charts_optimally(charts, team_members, pattern)` (`app.py`
lines 21-40): sanitise the roster, return `{}` on an empty result, otherwise
sort the charts by page count descending and greedily assign each to the
least-loaded member. -/
def split_charts_optimally (charts : List Chart) (team_members : List TeamMember)
    (pattern : Pattern) : Workloads :=
  let member_names := validNames team_members
  if member_names = [] then []
  else
    let charts_sorted := pySortDescBy (fun c => get_page_count c pattern) charts
    let workloads := initWorkloads member_names
    charts_sorted.foldl (assignChart pattern) workloads

/-- The statistics computed and written by `write_assignment_report`
(`app.py` lines 42-63).  `average` is `total_pages/len(assignments)` and
`efficiency` is `(1-(max_load-min_load)/max_load)*100 if max_load > 0 else 100`,
both exact rationals here (CPython computes floats; every value the program
can produce here is exactly representable in the report's printed precision
for the scenarios the spec fixes). -/
structure ReportStats where
  total_charts : Nat
  total_pages : Nat
  member_count : Nat
  average : ℚ
  min_load : Nat
  max_load : Nat
  variance : Nat
  efficiency : ℚ
deriving DecidableEq

/-- Embeds builtin `min(loads)`: `ValueError` on an empty list. -/
def pyListMin : List Nat → Except String Nat
  | [] => .error "ValueError: min() arg is an empty sequence"
  | a :: as => .ok (as.foldl Nat.min a)

/-- Embeds builtin `max(loads)`: `ValueError` on an empty list. -/
def pyListMax : List Nat → Except String Nat
  | [] => .error "ValueError: max() arg is an empty sequence"
  | a :: as => .ok (as.foldl Nat.max a)

/-- Embeds `write_assignment_report(assignments, output_file)` (`app.py`
lines 42-65) as the statistics it computes and writes.  The body runs inside
`try`, and `min(loads)` is evaluated before anything is written; the
`.error` result models the path where that raises `ValueError` (empty
`assignments`), the exception is swallowed by the blanket `except`, and no
report content is produced at all. -/
def write_assignment_report (assignments : Workloads) : Except String ReportStats :=
  let total_charts := (assignments.map (fun e => e.2.charts.length)).sum
  let total_pages := (assignments.map (fun e => e.2.total_pages)).sum
  let loads := assignments.map (fun e => e.2.total_pages)
  match pyListMin loads with
  | .error e => .error e
  | .ok min_load =>
    match pyListMax loads with
    | .error e => .error e
    | .ok max_load =>
      .ok { total_charts := total_charts
            total_pages := total_pages
            member_count := assignments.length
            average := (total_pages : ℚ) / (assignments.length : ℚ)
            min_load := min_load
            max_load := max_load
            variance := max_load - min_load
            efficiency :=
              if 0 < max_load then
                (1 - ((max_load : ℚ) - (min_load : ℚ)) / (max_load : ℚ)) * 100
              else 100 }

/-- Concatenation of all buckets' chart lists, in dict order. -/
def allAssigned : Workloads → List AssignedChart
  | [] => []
  | e :: rest => e.2.charts ++ allAssigned rest

/-- Sum of all buckets' running totals. -/
def totalsSum : Workloads → Nat
  | [] => 0
  | e :: rest => e.2.total_pages + totalsSum rest

/-- The loads list, in dict order. -/
def bucketLoads (w : Workloads) : List Nat :=
  w.map (fun e => e.2.total_pages)

/-- A concrete pattern for witnesses and scenarios: one match per character
of the blob (so the page count of a chart is the length of its markdown). -/
def everyChar : Pattern :=
  ⟨fun s => List.replicate s.length "pg"⟩

/-- The weight-10 chart of the spec's scenario. -/
def bigChart : Chart :=
  ⟨some "c0", some "big.pdf", some "xxxxxxxxxx"⟩

/-- One weight-1 chart of the spec's scenario. -/
def smallChart (oid : String) : Chart :=
  ⟨some oid, some "small.pdf", some "x"⟩

/-- The spec scenario's item list: weights 10, 1, 1, 1, 1, 1, 1, 1, 1, 1 in
that input order. -/
def scenarioCharts : List Chart :=
  [bigChart, smallChart "c1", smallChart "c2", smallChart "c3", smallChart "c4",
   smallChart "c5", smallChart "c6", smallChart "c7", smallChart "c8", smallChart "c9"]

/-- A two-member roster for the spec scenario. -/
def scenarioTeam : List TeamMember :=
  [.dict (some "A"), .dict (some "B")]

/-- C4: for every list of charts and every pattern, calling the partitioner
with an empty roster returns the empty mapping; the function is total, so no
error is raised. -/
theorem split_charts_empty_roster (charts : List Chart) (pattern : Pattern) :
    split_charts_optimally charts [] pattern = [] := rfl

/-- C6: the Weight Extractor returns 0 on an absent blob and on an empty
blob, and otherwise returns the number of non-overlapping matches of the
pattern in the blob; as a total function into `Nat` its result is a
non-negative integer and it has no error condition. -/
theorem get_page_count_contract (doc : Chart) (pattern : Pattern) :
    (doc.markdown = none → get_page_count doc pattern = 0) ∧
    (doc.markdown = some "" → get_page_count doc pattern = 0) ∧
    (∀ s, doc.markdown = some s → s ≠ "" →
      get_page_count doc pattern = (pattern.findall s).length) ∧
    0 ≤ get_page_count doc pattern := by
  refine ⟨fun h => ?_, fun h => ?_, fun s h hs => ?_, Nat.zero_le _⟩
  · simp [get_page_count, h]
  · simp [get_page_count, h]
  · simp [get_page_count, h, hs]

/-- Witness for C6 at concrete documents and a concrete pattern: an absent
blob and an empty blob both yield 0, and a 3-character blob yields the match
count of the pattern through the non-empty branch of the contract. -/
theorem get_page_count_contract_witness :
    get_page_count ⟨none, none, none⟩ everyChar = 0 ∧
    get_page_count ⟨none, none, some ""⟩ everyChar = 0 ∧
    get_page_count ⟨none, none, some "abc"⟩ everyChar = (everyChar.findall "abc").length :=
  ⟨(get_page_count_contract ⟨none, none, none⟩ everyChar).1 rfl,
   (get_page_count_contract ⟨none, none, some ""⟩ everyChar).2.1 rfl,
   (get_page_count_contract ⟨none, none, some "abc"⟩ everyChar).2.2.1 "abc" rfl (by decide)⟩

/-- C9: on the spec's scenario (weights 10 and nine 1's, two workers) the
first worker receives exactly the weight-10 chart, the second the nine
weight-1 charts; the loads are 10 and 9 and the report shows variance 1 and
efficiency 90.0%. -/
theorem split_charts_scenario_ten_ones :
    split_charts_optimally scenarioCharts scenarioTeam everyChar =
      [("A", ⟨[⟨"c0", "big.pdf", 10⟩], 10⟩),
       ("B", ⟨[⟨"c1", "small.pdf", 1⟩, ⟨"c2", "small.pdf", 1⟩, ⟨"c3", "small.pdf", 1⟩,
               ⟨"c4", "small.pdf", 1⟩, ⟨"c5", "small.pdf", 1⟩, ⟨"c6", "small.pdf", 1⟩,
               ⟨"c7", "small.pdf", 1⟩, ⟨"c8", "small.pdf", 1⟩, ⟨"c9", "small.pdf", 1⟩], 9⟩)] ∧
    write_assignment_report (split_charts_optimally scenarioCharts scenarioTeam everyChar) =
      .ok ⟨10, 19, 2, (19 : ℚ)/2, 9, 10, 1, 90⟩ := by
  have h : split_charts_optimally scenarioCharts scenarioTeam everyChar =
      [("A", ⟨[⟨"c0", "big.pdf", 10⟩], 10⟩),
       ("B", ⟨[⟨"c1", "small.pdf", 1⟩, ⟨"c2", "small.pdf", 1⟩, ⟨"c3", "small.pdf", 1⟩,
               ⟨"c4", "small.pdf", 1⟩, ⟨"c5", "small.pdf", 1⟩, ⟨"c6", "small.pdf", 1⟩,
               ⟨"c7", "small.pdf", 1⟩, ⟨"c8", "small.pdf", 1⟩, ⟨"c9", "small.pdf", 1⟩], 9⟩)] := rfl
  refine ⟨h, ?_⟩
  rw [h]
  norm_num [write_assignment_report, pyListMin, pyListMax]

/-- C3 fails on the code: on an empty assignment mapping the report writer
evaluates `min(loads)` on an empty list, which raises `ValueError`; the
blanket handler swallows it and nothing is written, so no statistic
(division-dependent or otherwise) is emitted. -/
theorem report_zero_workers_counterexample :
    write_assignment_report [] = .error "ValueError: min() arg is an empty sequence" := rfl

/-- C3 amended: on a zero-worker assignment the report writer raises
internally (caught by its blanket handler, so the caller sees no exception)
and produces no report content at all, rather than omitting only the
division-dependent statistics; on any non-empty assignment it produces the
full statistics without error. -/
theorem report_empty_errors_nonempty_succeeds (assignments : Workloads) :
    (assignments = [] →
      write_assignment_report assignments =
        .error "ValueError: min() arg is an empty sequence") ∧
    (assignments ≠ [] → ∃ stats, write_assignment_report assignments = .ok stats) := by
  constructor
  · rintro rfl; rfl
  · intro h
    match assignments with
    | [] => exact absurd rfl h
    | e :: rest => exact ⟨_, rfl⟩

/-- Witness for the amended C3 at concrete inputs: the empty mapping takes
the error path and a one-member mapping succeeds. -/
theorem report_empty_errors_nonempty_succeeds_witness :
    (write_assignment_report [] =
      .error "ValueError: min() arg is an empty sequence") ∧
    (write_assignment_report [("A", ⟨[], 0⟩)]).isOk = true := by
  refine ⟨(report_empty_errors_nonempty_succeeds []).1 rfl, ?_⟩
  obtain ⟨stats, hstats⟩ :=
    (report_empty_errors_nonempty_succeeds [("A", ⟨[], 0⟩)]).2 (by decide)
  rw [hstats]
  rfl

lemma pyDictKeys_subset : ∀ {l : List String} {x : String}, x ∈ pyDictKeys l → x ∈ l := by
  intro l
  induction l with
  | nil => intro x hx; simp [pyDictKeys] at hx
  | cons n ns ih =>
    intro x hx
    simp only [pyDictKeys, List.mem_cons] at hx
    rcases hx with h | h
    · exact h ▸ List.mem_cons_self n ns
    · exact List.mem_cons_of_mem n (ih (List.mem_of_mem_filter h))

lemma pyDictKeys_nodup : ∀ l : List String, (pyDictKeys l).Nodup := by
  intro l
  induction l with
  | nil => simp [pyDictKeys]
  | cons n ns ih =>
    simp only [pyDictKeys, List.nodup_cons]
    refine ⟨fun hmem => ?_, List.Nodup.filter _ ih⟩
    have := List.of_mem_filter hmem
    simp at this

lemma pyDictKeys_eq_self : ∀ {l : List String}, l.Nodup → pyDictKeys l = l := by
  intro l
  induction l with
  | nil => intro _; rfl
  | cons n ns ih =>
    intro h
    rcases List.nodup_cons.mp h with ⟨hn, hns⟩
    simp only [pyDictKeys, ih hns]
    congr 1
    refine List.filter_eq_self.mpr (fun x hx => ?_)
    have : x ≠ n := fun hxn => hn (hxn ▸ hx)
    simpa using this

/-- C5: for a non-empty roster whose entries are all well-formed workers
(dicts with a non-empty name) with distinct names, partitioning an empty
item list yields exactly one bucket per worker name, each with an empty
chart list and total weight 0. -/
theorem split_charts_empty_items (team_members : List TeamMember) (pattern : Pattern)
    (h1 : team_members ≠ [])
    (h2 : ∀ m ∈ team_members, isValidMember m = true)
    (h3 : (validNames team_members).Nodup) :
    split_charts_optimally [] team_members pattern =
      (validNames team_members).map (fun n => (n, ⟨[], 0⟩)) ∧
    (split_charts_optimally [] team_members pattern).length = team_members.length := by
  have hv : validNames team_members = team_members.map memberName := by
    unfold validNames
    rw [List.filter_eq_self.mpr h2]
  have hne : ¬(validNames team_members = []) := by
    rw [hv]
    simpa using h1
  have hmain : split_charts_optimally [] team_members pattern =
      (validNames team_members).map (fun n => (n, ⟨[], 0⟩)) := by
    show (if validNames team_members = [] then [] else initWorkloads (validNames team_members)) =
      (validNames team_members).map (fun n => (n, ⟨[], 0⟩))
    rw [if_neg hne]
    unfold initWorkloads
    rw [pyDictKeys_eq_self h3]
  refine ⟨hmain, ?_⟩
  rw [hmain, List.length_map, hv, List.length_map]

/-- Witness for C5: a valid two-member roster with an empty item list gives
two empty buckets. -/
theorem split_charts_empty_items_witness :
    split_charts_optimally [] scenarioTeam everyChar =
      [("A", ⟨[], 0⟩), ("B", ⟨[], 0⟩)] ∧
    (split_charts_optimally [] scenarioTeam everyChar).length = 2 :=
  split_charts_empty_items scenarioTeam everyChar (by decide) (by decide) (by decide)

lemma insertByDesc_perm (key : α → Nat) (a : α) :
    ∀ l : List α, (insertByDesc key a l).Perm (a :: l) := by
  intro l
  induction l with
  | nil => simp [insertByDesc]
  | cons b bs ih =>
    unfold insertByDesc
    split
    · exact List.Perm.refl _
    · exact (ih.cons b).trans (List.Perm.swap a b bs)

lemma pySortDescBy_perm (key : α → Nat) :
    ∀ l : List α, (pySortDescBy key l).Perm l := by
  intro l
  induction l with
  | nil => simp [pySortDescBy]
  | cons x xs ih =>
    have : pySortDescBy key (x :: xs) = insertByDesc key x (pySortDescBy key xs) := rfl
    rw [this]
    exact (insertByDesc_perm key x _).trans (ih.cons x)

lemma insertByDesc_sorted (key : α → Nat) (a : α) :
    ∀ l : List α, List.Sorted (fun x y => key y ≤ key x) l →
      List.Sorted (fun x y => key y ≤ key x) (insertByDesc key a l) := by
  intro l
  induction l with
  | nil => intro _; simp [insertByDesc]
  | cons b bs ih =>
    intro hl
    rcases List.sorted_cons.mp hl with ⟨hb, hbs⟩
    unfold insertByDesc
    by_cases h : key b ≤ key a
    · rw [if_pos h]
      refine List.sorted_cons.mpr ⟨?_, hl⟩
      intro y hy
      rcases List.mem_cons.mp hy with rfl | hy
      · exact h
      · exact le_trans (hb y hy) h
    · rw [if_neg h]
      refine List.sorted_cons.mpr ⟨?_, ih hbs⟩
      intro y hy
      have hy' := (insertByDesc_perm key a bs).mem_iff.mp hy
      rcases List.mem_cons.mp hy' with rfl | hy'
      · exact le_of_not_le h
      · exact hb y hy'

lemma pySortDescBy_sorted (key : α → Nat) :
    ∀ l : List α, List.Sorted (fun x y => key y ≤ key x) (pySortDescBy key l) := by
  intro l
  induction l with
  | nil => simp [pySortDescBy]
  | cons x xs ih => exact insertByDesc_sorted key x _ ih

lemma insertByDesc_filter (key : α → Nat) (a : α) (v : Nat) :
    ∀ l : List α,
      (insertByDesc key a l).filter (fun x => key x == v) =
        if key a = v then a :: l.filter (fun x => key x == v)
        else l.filter (fun x => key x == v) := by
  intro l
  induction l with
  | nil =>
    by_cases h : key a = v <;> simp [insertByDesc, List.filter_cons, h]
  | cons b bs ih =>
    unfold insertByDesc
    by_cases hba : key b ≤ key a
    · rw [if_pos hba]
      by_cases h1 : key a = v <;> by_cases h2 : key b = v <;>
        simp [List.filter_cons, h1, h2]
    · rw [if_neg hba]
      have hab : key a < key b := lt_of_not_le hba
      by_cases h1 : key a = v
      · have h2 : ¬(key b = v) := by
          intro h2
          exact absurd (h1.trans h2.symm) (ne_of_lt hab)
        simp [List.filter_cons, h1, h2, ih]
      · by_cases h2 : key b = v <;> simp [List.filter_cons, h1, h2, ih]

lemma pySortDescBy_filter (key : α → Nat) (v : Nat) :
    ∀ l : List α,
      (pySortDescBy key l).filter (fun x => key x == v) =
        l.filter (fun x => key x == v) := by
  intro l
  induction l with
  | nil => simp [pySortDescBy]
  | cons x xs ih =>
    have hx : pySortDescBy key (x :: xs) = insertByDesc key x (pySortDescBy key xs) := rfl
    rw [hx, insertByDesc_filter]
    by_cases h : key x = v <;> simp [List.filter_cons, h, ih]

/-- C7: the partitioner's sorting pass orders items by page count
descending; for every weight value, the items of that weight appear in
exactly their relative input order (stability); the sorted list is a
permutation of the input; and consequently partitioning equal
(items, workers) pairs yields identical results. -/
theorem split_charts_sort_stable_desc (pattern : Pattern) (charts : List Chart) :
    List.Sorted (fun a b => get_page_count b pattern ≤ get_page_count a pattern)
      (pySortDescBy (fun c => get_page_count c pattern) charts) ∧
    (∀ v, (pySortDescBy (fun c => get_page_count c pattern) charts).filter
        (fun c => get_page_count c pattern == v) =
        charts.filter (fun c => get_page_count c pattern == v)) ∧
    (pySortDescBy (fun c => get_page_count c pattern) charts).Perm charts ∧
    (∀ charts2 team_members team_members2, charts = charts2 → team_members = team_members2 →
      split_charts_optimally charts team_members pattern =
        split_charts_optimally charts2 team_members2 pattern) := by
  refine ⟨pySortDescBy_sorted _ charts, fun v => pySortDescBy_filter _ v charts,
    pySortDescBy_perm _ charts, ?_⟩
  intro charts2 team_members team_members2 h1 h2
  rw [h1, h2]

/-- Witness for C7 at the concrete scenario inputs: repeated partitioning of
the same pair yields the identical result. -/
theorem split_charts_sort_stable_desc_witness :
    split_charts_optimally scenarioCharts scenarioTeam everyChar =
      split_charts_optimally scenarioCharts scenarioTeam everyChar :=
  (split_charts_sort_stable_desc everyChar scenarioCharts).2.2.2
    scenarioCharts scenarioTeam scenarioTeam rfl rfl

lemma pyMinAux_cons (f : α → Nat) (b x : α) (xs : List α) :
    pyMinAux f b (x :: xs) = pyMinAux f (if f x < f b then x else b) xs := rfl

lemma pyMinAux_spec (f : α → Nat) :
    ∀ (l : List α) (b : α), ∃ l₁ l₂,
      b :: l = l₁ ++ pyMinAux f b l :: l₂ ∧
      (∀ x ∈ b :: l, f (pyMinAux f b l) ≤ f x) ∧
      (∀ x ∈ l₁, f (pyMinAux f b l) < f x) := by
  intro l
  induction l with
  | nil =>
    intro b
    refine ⟨[], [], rfl, ?_, by simp⟩
    intro x hx
    rcases List.mem_cons.mp hx with rfl | hx
    · exact le_refl _
    · simp at hx
  | cons x xs ih =>
    intro b
    rw [pyMinAux_cons]
    by_cases h : f x < f b
    · rw [if_pos h]
      obtain ⟨l₁, l₂, hdec, hmin, hstrict⟩ := ih x
      refine ⟨b :: l₁, l₂, ?_, ?_, ?_⟩
      · rw [List.cons_append, ← hdec]
      · intro y hy
        rcases List.mem_cons.mp hy with rfl | hy
        · exact le_of_lt (lt_of_le_of_lt (hmin x (List.mem_cons_self x xs)) h)
        · exact hmin y hy
      · intro y hy
        rcases List.mem_cons.mp hy with rfl | hy
        · exact lt_of_le_of_lt (hmin x (List.mem_cons_self x xs)) h
        · exact hstrict y hy
    · rw [if_neg h]
      have hbx : f b ≤ f x := le_of_not_lt h
      obtain ⟨l₁, l₂, hdec, hmin, hstrict⟩ := ih b
      cases l₁ with
      | nil =>
        simp only [List.nil_append] at hdec
        have h1 : b = pyMinAux f b xs := (List.cons.injEq _ _ _ _ ▸ hdec).1
        refine ⟨[], x :: xs, by rw [List.nil_append, ← h1], ?_, by simp⟩
        intro y hy
        rw [← h1]
        rcases List.mem_cons.mp hy with rfl | hy
        · exact le_refl _
        · rcases List.mem_cons.mp hy with rfl | hy
          · exact hbx
          · exact le_of_eq_of_le (congrArg f h1) (hmin y (List.mem_cons_of_mem b hy))
      | cons b' l₁' =>
        rw [List.cons_append] at hdec
        have h1 : b = b' := (List.cons.injEq _ _ _ _ ▸ hdec).1
        have h2 : xs = l₁' ++ pyMinAux f b xs :: l₂ := (List.cons.injEq _ _ _ _ ▸ hdec).2
        have hstrb : f (pyMinAux f b xs) < f b :=
          h1 ▸ hstrict b' (List.mem_cons_self b' l₁')
        refine ⟨b :: x :: l₁', l₂, ?_, ?_, ?_⟩
        · rw [List.cons_append, List.cons_append, ← h2]
        · intro y hy
          rcases List.mem_cons.mp hy with rfl | hy
          · exact hmin y (List.mem_cons_self y xs)
          · rcases List.mem_cons.mp hy with rfl | hy
            · exact le_of_lt (lt_of_lt_of_le hstrb hbx)
            · exact hmin y (List.mem_cons_of_mem b hy)
        · intro y hy
          rcases List.mem_cons.mp hy with rfl | hy
          · exact hstrb
          · rcases List.mem_cons.mp hy with rfl | hy
            · exact lt_of_lt_of_le hstrb hbx
            · exact hstrict y (List.mem_cons_of_mem b' hy)

lemma pyMinBy_spec (f : α → Nat) (l : List α) (hl : l ≠ []) :
    ∃ l₁ a l₂, pyMinBy f l = some a ∧ l = l₁ ++ a :: l₂ ∧
      (∀ x ∈ l, f a ≤ f x) ∧ (∀ x ∈ l₁, f a < f x) := by
  match l with
  | [] => exact absurd rfl hl
  | b :: bs =>
    obtain ⟨l₁, l₂, hdec, hmin, hstrict⟩ := pyMinAux_spec f bs b
    exact ⟨l₁, pyMinAux f b bs, l₂, rfl, hdec, hmin, hstrict⟩

lemma updateBucket_keys (name : String) (f : Bucket → Bucket) :
    ∀ w : Workloads, (updateBucket name f w).map Prod.fst = w.map Prod.fst := by
  intro w
  induction w with
  | nil => rfl
  | cons e rest ih =>
    obtain ⟨n, b⟩ := e
    by_cases h : n = name
    · simp [updateBucket, h]
    · simp [updateBucket, h, ih]

lemma updateBucket_append_notmem (name : String) (f : Bucket → Bucket)
    (l₂ : Workloads) (b : Bucket) :
    ∀ l₁ : Workloads, name ∉ l₁.map Prod.fst →
      updateBucket name f (l₁ ++ (name, b) :: l₂) = l₁ ++ (name, f b) :: l₂ := by
  intro l₁
  induction l₁ with
  | nil => intro _; simp [updateBucket]
  | cons e rest ih =>
    obtain ⟨n, b'⟩ := e
    intro h
    have hn : ¬(n = name) := by
      intro hn
      exact h (by simp [hn])
    simp only [List.cons_append, updateBucket]
    rw [if_neg hn]
    congr 1
    exact ih (fun hmem => h (List.mem_cons_of_mem _ hmem))

lemma assignChart_keys (pattern : Pattern) (chart : Chart) (w : Workloads) :
    (assignChart pattern w chart).map Prod.fst = w.map Prod.fst := by
  unfold assignChart
  cases pyMinBy (fun e => e.2.total_pages) w with
  | none => rfl
  | some e => exact updateBucket_keys e.1 _ w

/-- The anatomy of one assignment step on a dict with distinct keys: the
workloads list splits around the selected entry, that entry's load is a
minimum over all entries, every entry strictly before it has a strictly
larger load (the roster-order tie-break), and the step replaces exactly that
entry's bucket by the bucket extended with the chart. -/
lemma assignChart_decomp (pattern : Pattern) (w : Workloads) (chart : Chart)
    (hnd : (w.map Prod.fst).Nodup) (hw : w ≠ []) :
    ∃ l₁ n b l₂, w = l₁ ++ (n, b) :: l₂ ∧
      (∀ e ∈ w, b.total_pages ≤ e.2.total_pages) ∧
      (∀ e ∈ l₁, b.total_pages < e.2.total_pages) ∧
      assignChart pattern w chart =
        l₁ ++ (n, addChart (assignedOf chart pattern) b) :: l₂ := by
  obtain ⟨l₁, a, l₂, hsome, hdec, hmin, hstrict⟩ :=
    pyMinBy_spec (fun e => e.2.total_pages) w hw
  obtain ⟨n, b⟩ := a
  refine ⟨l₁, n, b, l₂, hdec, hmin, hstrict, ?_⟩
  unfold assignChart
  rw [hsome]
  have hnotm : n ∉ l₁.map Prod.fst := by
    have hnd' : ((l₁ ++ (n, b) :: l₂).map Prod.fst).Nodup := hdec ▸ hnd
    rw [List.map_append, List.map_cons] at hnd'
    have hdisj := List.disjoint_of_nodup_append hnd'
    exact fun hmem => hdisj hmem (List.mem_cons_self _ _)
  rw [hdec]
  exact updateBucket_append_notmem n _ l₂ b l₁ hnotm

lemma allAssigned_append : ∀ l₁ l₂ : Workloads,
    allAssigned (l₁ ++ l₂) = allAssigned l₁ ++ allAssigned l₂ := by
  intro l₁ l₂
  induction l₁ with
  | nil => rfl
  | cons e rest ih => simp [allAssigned, ih]

lemma totalsSum_append : ∀ l₁ l₂ : Workloads,
    totalsSum (l₁ ++ l₂) = totalsSum l₁ + totalsSum l₂ := by
  intro l₁ l₂
  induction l₁ with
  | nil => simp [totalsSum]
  | cons e rest ih => simp [totalsSum, ih]; omega

lemma assignChart_conserve (pattern : Pattern) (w : Workloads) (chart : Chart)
    (hnd : (w.map Prod.fst).Nodup) (hw : w ≠ []) :
    (allAssigned (assignChart pattern w chart)).Perm
      (allAssigned w ++ [assignedOf chart pattern]) ∧
    totalsSum (assignChart pattern w chart) =
      totalsSum w + get_page_count chart pattern := by
  obtain ⟨l₁, n, b, l₂, hdec, hmin, hstrict, hstep⟩ :=
    assignChart_decomp pattern w chart hnd hw
  rw [hstep, hdec]
  constructor
  · refine List.perm_iff_count.mpr (fun y => ?_)
    simp [allAssigned_append, allAssigned, addChart, List.count_append, List.count_cons]
  · rw [totalsSum_append, totalsSum_append]
    simp [totalsSum, addChart, assignedOf]
    omega

lemma foldl_assign_conserve (pattern : Pattern) :
    ∀ (cs : List Chart) (w : Workloads), (w.map Prod.fst).Nodup → w ≠ [] →
      (allAssigned (cs.foldl (assignChart pattern) w)).Perm
        (allAssigned w ++ cs.map (fun c => assignedOf c pattern)) ∧
      totalsSum (cs.foldl (assignChart pattern) w) =
        totalsSum w + (cs.map (fun c => get_page_count c pattern)).sum := by
  intro cs
  induction cs with
  | nil => intro w _ _; simp
  | cons c cs ih =>
    intro w hnd hw
    have hkeys := assignChart_keys pattern c w
    have hnd' : ((assignChart pattern w c).map Prod.fst).Nodup := by rw [hkeys]; exact hnd
    have hw' : assignChart pattern w c ≠ [] := by
      intro h0
      rw [h0] at hkeys
      exact hw (List.map_eq_nil_iff.mp hkeys.symm)
    obtain ⟨hperm, hsum⟩ := ih (assignChart pattern w c) hnd' hw'
    obtain ⟨hp1, hs1⟩ := assignChart_conserve pattern w c hnd hw
    have hfold : (c :: cs).foldl (assignChart pattern) w =
        cs.foldl (assignChart pattern) (assignChart pattern w c) := rfl
    constructor
    · rw [hfold]
      refine hperm.trans ?_
      refine (hp1.append_right (cs.map (fun c => assignedOf c pattern))).trans ?_
      rw [List.append_assoc, List.map_cons]
      exact List.Perm.refl _
    · rw [hfold, hsum, hs1, List.map_cons, List.sum_cons]
      omega

lemma pyDictKeys_ne_nil : ∀ {l : List String}, l ≠ [] → pyDictKeys l ≠ [] := by
  intro l h
  match l with
  | [] => exact absurd rfl h
  | n :: ns => simp [pyDictKeys]

lemma allAssigned_map_empty : ∀ ns : List String,
    allAssigned (ns.map (fun n => (n, (⟨[], 0⟩ : Bucket)))) = [] := by
  intro ns
  induction ns with
  | nil => rfl
  | cons n ns ih => simp [allAssigned, ih]

lemma totalsSum_map_empty : ∀ ns : List String,
    totalsSum (ns.map (fun n => (n, (⟨[], 0⟩ : Bucket)))) = 0 := by
  intro ns
  induction ns with
  | nil => rfl
  | cons n ns ih => simp [totalsSum, ih]

lemma map_fst_pair : ∀ ns : List String,
    ((ns.map (fun n => (n, (⟨[], 0⟩ : Bucket)))).map Prod.fst) = ns := by
  intro ns
  induction ns with
  | nil => rfl
  | cons n t ih => simp only [List.map_cons]; rw [ih]

lemma initWorkloads_keys (member_names : List String) :
    (initWorkloads member_names).map Prod.fst = pyDictKeys member_names := by
  unfold initWorkloads
  exact map_fst_pair (pyDictKeys member_names)

lemma split_charts_eq_foldl (charts : List Chart) (team_members : List TeamMember)
    (pattern : Pattern) (h : validNames team_members ≠ []) :
    split_charts_optimally charts team_members pattern =
      (pySortDescBy (fun c => get_page_count c pattern) charts).foldl
        (assignChart pattern) (initWorkloads (validNames team_members)) := by
  show (if validNames team_members = [] then [] else _) = _
  rw [if_neg h]

/-- C1: for a roster with at least one valid member, the chart records
across all buckets are a permutation of (exactly the records derived from)
the input chart list — no chart is lost or duplicated — and the buckets'
running totals sum to the total page weight of the input. -/
theorem split_charts_conservation (charts : List Chart) (team_members : List TeamMember)
    (pattern : Pattern) (h : validNames team_members ≠ []) :
    (allAssigned (split_charts_optimally charts team_members pattern)).Perm
      (charts.map (fun c => assignedOf c pattern)) ∧
    totalsSum (split_charts_optimally charts team_members pattern) =
      (charts.map (fun c => get_page_count c pattern)).sum := by
  have hnd : ((initWorkloads (validNames team_members)).map Prod.fst).Nodup := by
    rw [initWorkloads_keys]
    exact pyDictKeys_nodup _
  have hne : initWorkloads (validNames team_members) ≠ [] := by
    intro h0
    have : pyDictKeys (validNames team_members) = [] := by
      rw [← initWorkloads_keys, h0]
      rfl
    exact pyDictKeys_ne_nil h this
  obtain ⟨hperm, hsum⟩ := foldl_assign_conserve pattern
    (pySortDescBy (fun c => get_page_count c pattern) charts)
    (initWorkloads (validNames team_members)) hnd hne
  rw [split_charts_eq_foldl charts team_members pattern h]
  constructor
  · refine hperm.trans ?_
    rw [show allAssigned (initWorkloads (validNames team_members)) = [] from
      allAssigned_map_empty _, List.nil_append]
    exact (pySortDescBy_perm _ charts).map _
  · rw [hsum, show totalsSum (initWorkloads (validNames team_members)) = 0 from
      totalsSum_map_empty _, Nat.zero_add]
    exact ((pySortDescBy_perm _ charts).map _).sum_eq

/-- Witness for C1 at the concrete scenario inputs. -/
theorem split_charts_conservation_witness :
    (allAssigned (split_charts_optimally scenarioCharts scenarioTeam everyChar)).Perm
      (scenarioCharts.map (fun c => assignedOf c everyChar)) ∧
    totalsSum (split_charts_optimally scenarioCharts scenarioTeam everyChar) =
      (scenarioCharts.map (fun c => get_page_count c everyChar)).sum :=
  split_charts_conservation scenarioCharts scenarioTeam everyChar (by decide)

/-- Invariant of the greedy pass: any two bucket loads differ by at most
`W`. -/
def BalancedWithin (W : Nat) (w : Workloads) : Prop :=
  ∀ a ∈ bucketLoads w, ∀ b ∈ bucketLoads w, a ≤ b + W

lemma bucketLoads_decomp (l₁ l₂ : Workloads) (n : String) (b : Bucket) :
    bucketLoads (l₁ ++ (n, b) :: l₂) =
      bucketLoads l₁ ++ b.total_pages :: bucketLoads l₂ := by
  simp [bucketLoads]

lemma assignChart_balanced (pattern : Pattern) (chart : Chart) (W : Nat) (w : Workloads)
    (hc : get_page_count chart pattern ≤ W)
    (hnd : (w.map Prod.fst).Nodup)
    (hbal : BalancedWithin W w) :
    BalancedWithin W (assignChart pattern w chart) := by
  by_cases hw : w = []
  · subst hw
    intro a ha
    simp [assignChart, pyMinBy, bucketLoads] at ha
  · obtain ⟨l₁, n, b, l₂, hdec, hmin, hstrict, hstep⟩ :=
      assignChart_decomp pattern w chart hnd hw
    rw [hstep]
    have hload : (addChart (assignedOf chart pattern) b).total_pages =
        b.total_pages + get_page_count chart pattern := by
      simp [addChart, assignedOf]
    have hmin' : ∀ y ∈ bucketLoads w, b.total_pages ≤ y := by
      intro y hy
      obtain ⟨e, he, hye⟩ := List.mem_map.mp hy
      exact hye ▸ hmin e he
    have hmemw : ∀ y : Nat, (y ∈ bucketLoads l₁ ∨ y ∈ bucketLoads l₂) → y ∈ bucketLoads w := by
      intro y hy
      rw [hdec, bucketLoads_decomp]
      rcases hy with h | h
      · exact List.mem_append.mpr (Or.inl h)
      · exact List.mem_append.mpr (Or.inr (List.mem_cons_of_mem _ h))
    have hbmem : b.total_pages ∈ bucketLoads w := by
      rw [hdec, bucketLoads_decomp]
      exact List.mem_append.mpr (Or.inr (List.mem_cons_self _ _))
    intro a ha a' ha'
    rw [bucketLoads_decomp] at ha ha'
    rcases List.mem_append.mp ha with h1 | h1
    · have haw : a ∈ bucketLoads w := hmemw a (Or.inl h1)
      rcases List.mem_append.mp ha' with h2 | h2
      · exact hbal a haw _ (hmemw _ (Or.inl h2))
      · rcases List.mem_cons.mp h2 with rfl | h2
        · rw [hload]
          have := hbal a haw b.total_pages hbmem
          omega
        · exact hbal a haw _ (hmemw _ (Or.inr h2))
    · rcases List.mem_cons.mp h1 with rfl | h1
      · rcases List.mem_append.mp ha' with h2 | h2
        · have h3 := hmin' a' (hmemw _ (Or.inl h2))
          rw [hload]
          omega
        · rcases List.mem_cons.mp h2 with rfl | h2
          · omega
          · have h3 := hmin' a' (hmemw _ (Or.inr h2))
            rw [hload]
            omega
      · have haw : a ∈ bucketLoads w := hmemw a (Or.inr h1)
        rcases List.mem_append.mp ha' with h2 | h2
        · exact hbal a haw _ (hmemw _ (Or.inl h2))
        · rcases List.mem_cons.mp h2 with rfl | h2
          · rw [hload]
            have := hbal a haw b.total_pages hbmem
            omega
          · exact hbal a haw _ (hmemw _ (Or.inr h2))

lemma foldl_assign_balanced (pattern : Pattern) (W : Nat) :
    ∀ (cs : List Chart) (w : Workloads),
      (∀ c ∈ cs, get_page_count c pattern ≤ W) →
      (w.map Prod.fst).Nodup →
      BalancedWithin W w →
      BalancedWithin W (cs.foldl (assignChart pattern) w) := by
  intro cs
  induction cs with
  | nil => intro w _ _ h; exact h
  | cons c cs ih =>
    intro w hcs hnd hbal
    have hnd' : ((assignChart pattern w c).map Prod.fst).Nodup := by
      rw [assignChart_keys]
      exact hnd
    exact ih (assignChart pattern w c)
      (fun c' h => hcs c' (List.mem_cons_of_mem _ h)) hnd'
      (assignChart_balanced pattern c W w (hcs c (List.mem_cons_self _ _)) hnd hbal)

/-- The maximum single item weight, `max(item weight)` with 0 for an empty
item list. -/
def maxPages (charts : List Chart) (pattern : Pattern) : Nat :=
  (charts.map (fun c => get_page_count c pattern)).foldr max 0

lemma le_foldr_max : ∀ (l : List Nat) (x : Nat), x ∈ l → x ≤ l.foldr max 0 := by
  intro l
  induction l with
  | nil => intro x hx; simp at hx
  | cons a t ih =>
    intro x hx
    rcases List.mem_cons.mp hx with rfl | hx
    · exact le_max_left _ _
    · exact le_trans (ih x hx) (le_max_right _ _)

lemma bucketLoads_init (ns : List String) :
    ∀ y ∈ bucketLoads (ns.map (fun n => (n, (⟨[], 0⟩ : Bucket)))), y = 0 := by
  intro y
  induction ns with
  | nil => intro hy; simp [bucketLoads] at hy
  | cons n t ih =>
    intro hy
    rw [List.map_cons] at hy
    simp only [bucketLoads, List.map_cons] at hy
    rcases List.mem_cons.mp hy with h | h
    · exact h
    · exact ih h

/-- C2: with at least two (valid) workers — item weights are page counts and
hence non-negative by construction — after the greedy pass any two bucket
loads differ by at most the maximum single item weight, and with no items
all loads are equal (difference 0). -/
theorem split_charts_lpt_balance_bound (charts : List Chart)
    (team_members : List TeamMember) (pattern : Pattern)
    (h2 : 2 ≤ (validNames team_members).length) :
    (∀ a ∈ bucketLoads (split_charts_optimally charts team_members pattern),
     ∀ b ∈ bucketLoads (split_charts_optimally charts team_members pattern),
       a - b ≤ maxPages charts pattern) ∧
    (charts = [] →
     ∀ a ∈ bucketLoads (split_charts_optimally charts team_members pattern),
     ∀ b ∈ bucketLoads (split_charts_optimally charts team_members pattern), a = b) := by
  have hne : validNames team_members ≠ [] := by
    intro h0
    rw [h0] at h2
    simp at h2
  have hnd : ((initWorkloads (validNames team_members)).map Prod.fst).Nodup := by
    rw [initWorkloads_keys]
    exact pyDictKeys_nodup _
  have hinit : BalancedWithin (maxPages charts pattern)
      (initWorkloads (validNames team_members)) := by
    intro a ha a' ha'
    rw [bucketLoads_init _ a ha]
    exact Nat.zero_le _
  have hsorted_bound : ∀ c ∈ pySortDescBy (fun c => get_page_count c pattern) charts,
      get_page_count c pattern ≤ maxPages charts pattern := by
    intro c hcmem
    have hcin : c ∈ charts := (pySortDescBy_perm _ charts).mem_iff.mp hcmem
    exact le_foldr_max _ _ (List.mem_map_of_mem _ hcin)
  have hbal := foldl_assign_balanced pattern (maxPages charts pattern)
    (pySortDescBy (fun c => get_page_count c pattern) charts)
    (initWorkloads (validNames team_members)) hsorted_bound hnd hinit
  rw [split_charts_eq_foldl charts team_members pattern hne]
  constructor
  · intro a ha a' ha'
    have := hbal a ha a' ha'
    omega
  · intro hcharts a ha a' ha'
    have h1 := hbal a ha a' ha'
    have h2' := hbal a' ha' a ha
    have hmp : maxPages charts pattern = 0 := by
      rw [hcharts]
      rfl
    omega

/-- Witness for C2 at the scenario inputs: the loads 10 and 9 both occur and
their difference is bounded by the maximum item weight. -/
theorem split_charts_lpt_balance_bound_witness :
    10 - 9 ≤ maxPages scenarioCharts everyChar :=
  (split_charts_lpt_balance_bound scenarioCharts scenarioTeam everyChar (by decide)).1
    10 (by decide) 9 (by decide)

lemma foldl_assign_keys (pattern : Pattern) :
    ∀ (cs : List Chart) (w : Workloads),
      (cs.foldl (assignChart pattern) w).map Prod.fst = w.map Prod.fst := by
  intro cs
  induction cs with
  | nil => intro w; rfl
  | cons c cs ih =>
    intro w
    have hfold : (c :: cs).foldl (assignChart pattern) w =
        cs.foldl (assignChart pattern) (assignChart pattern w c) := rfl
    rw [hfold, ih, assignChart_keys]

lemma split_keys (charts : List Chart) (team_members : List TeamMember)
    (pattern : Pattern) :
    (split_charts_optimally charts team_members pattern).map Prod.fst =
      pyDictKeys (validNames team_members) := by
  by_cases h : validNames team_members = []
  · show (if validNames team_members = [] then [] else _).map Prod.fst = _
    rw [if_pos h, h]
    rfl
  · rw [split_charts_eq_foldl charts team_members pattern h, foldl_assign_keys,
      initWorkloads_keys]

/-- C8: every assignment step selects an entry whose load is minimal over
all buckets, every entry strictly before it in the workloads dict has a
strictly larger load (so on a tie the first worker in dict order wins), and
only that entry's bucket is extended; moreover the workloads dict is keyed
by the valid roster names in roster order throughout a run of the
partitioner. -/
theorem split_charts_min_selection_first_tie (pattern : Pattern) :
    (∀ (w : Workloads) (chart : Chart), (w.map Prod.fst).Nodup → w ≠ [] →
      ∃ l₁ n b l₂, w = l₁ ++ (n, b) :: l₂ ∧
        (∀ e ∈ w, b.total_pages ≤ e.2.total_pages) ∧
        (∀ e ∈ l₁, b.total_pages < e.2.total_pages) ∧
        assignChart pattern w chart =
          l₁ ++ (n, addChart (assignedOf chart pattern) b) :: l₂) ∧
    (∀ (charts : List Chart) (team_members : List TeamMember),
      (split_charts_optimally charts team_members pattern).map Prod.fst =
        pyDictKeys (validNames team_members)) :=
  ⟨fun w chart hnd hw => assignChart_decomp pattern w chart hnd hw,
   fun charts team_members => split_keys charts team_members pattern⟩

/-- Witness for C8: on two equally-loaded (tied) workers the first one in
dict order receives the chart. -/
theorem split_charts_min_selection_first_tie_witness :
    assignChart everyChar [("A", ⟨[], 0⟩), ("B", ⟨[], 0⟩)] bigChart =
      [("A", ⟨[⟨"c0", "big.pdf", 10⟩], 10⟩), ("B", ⟨[], 0⟩)] := by
  obtain ⟨l₁, n, b, l₂, hdec, hmin, hstrict, hstep⟩ :=
    (split_charts_min_selection_first_tie everyChar).1
      [("A", ⟨[], 0⟩), ("B", ⟨[], 0⟩)] bigChart (by decide) (by decide)
  rw [hstep]
  cases l₁ with
  | nil =>
    rw [List.nil_append] at hdec
    injection hdec with h1 h2
    obtain ⟨hn, hb⟩ := Prod.mk.injEq _ _ _ _ ▸ h1
    rw [List.nil_append, ← h2, ← hn, ← hb]
    rfl
  | cons e l₁' =>
    rw [List.cons_append] at hdec
    injection hdec with h1 _
    have hlt := hstrict e (List.mem_cons_self e l₁')
    rw [← h1] at hlt
    simp at hlt

/-- C10: the partitioner silently drops exactly the roster entries that are
not dicts or whose name is missing or empty; the bucket keys are the
remaining names in roster order (with a later duplicate of an earlier name
collapsing into its bucket, so under distinct names the keys are exactly the
valid names); and when no valid name remains the result is the empty
mapping, identical to partitioning with an empty roster. -/
theorem split_charts_roster_sanitisation (charts : List Chart)
    (team_members : List TeamMember) (pattern : Pattern) :
    (∀ m ∈ team_members, isValidMember m = false ↔
        (m = .nonDict ∨ m = .dict none ∨ m = .dict (some ""))) ∧
    (split_charts_optimally charts team_members pattern).map Prod.fst =
      pyDictKeys (validNames team_members) ∧
    ((validNames team_members).Nodup →
      (split_charts_optimally charts team_members pattern).map Prod.fst =
        validNames team_members) ∧
    (validNames team_members = [] →
      split_charts_optimally charts team_members pattern = [] ∧
      split_charts_optimally charts team_members pattern =
        split_charts_optimally charts [] pattern) := by
  refine ⟨?_, split_keys charts team_members pattern, ?_, ?_⟩
  · intro m _
    cases m with
    | nonDict => simp [isValidMember]
    | dict o =>
      cases o with
      | none => simp [isValidMember]
      | some n => by_cases h : n = "" <;> simp [isValidMember, h]
  · intro hnd
    rw [split_keys charts team_members pattern, pyDictKeys_eq_self hnd]
  · intro h0
    have hempty : split_charts_optimally charts team_members pattern = [] := by
      show (if validNames team_members = [] then [] else _) = []
      rw [if_pos h0]
    exact ⟨hempty, by rw [hempty]; rfl⟩

/-- Witness for C10: a roster made only of malformed entries produces the
empty mapping, exactly like the empty roster. -/
theorem split_charts_roster_sanitisation_witness :
    split_charts_optimally scenarioCharts
      [.nonDict, .dict none, .dict (some "")] everyChar = [] ∧
    split_charts_optimally scenarioCharts
      [.nonDict, .dict none, .dict (some "")] everyChar =
      split_charts_optimally scenarioCharts [] everyChar :=
  (split_charts_roster_sanitisation scenarioCharts
    [.nonDict, .dict none, .dict (some "")] everyChar).2.2.2 (by decide)
